import Mathlib

/-!
Verification development for the swapi pagination service: a shallow
embedding of the identifier codec, the Relay-style connection engine
(`Connection::new`), the generic field-dispatch layer for `Connection<N>`
and `Edge<N>`, and the typed query-root lookups, together with theorems
about their behaviour.

Conventions of the embedding: Rust panics (`unwrap`, `panic!`, `todo!`)
are modelled by `Option` with `none` as the panic outcome; machine
integers are `Nat`/`Int` with the `i32 -> usize` wrapping cast made
explicit; `\d` in the identifier regex is modelled as an ASCII digit
(non-ASCII digit captures would fail the subsequent `u32` parse and
panic either way).
-/

set_option maxHeartbeats 1000000

namespace Swapi

/-- Characters of the fixed literal part of the identifier pattern
`https://swapi.dev/api/[^/]+/(?<id>\d+)/`. -/
def lit_chars : List Char := "https://swapi.dev/api/".data

/-- Consume an expected literal from the front of the input; `none` when the
input does not start with it. -/
def dropLit : List Char → List Char → Option (List Char)
  | [], cs => some cs
  | _ :: _, [] => none
  | p :: ps, c :: cs => if c = p then dropLit ps cs else none

/-- Numeric value of a run of ASCII digits, most significant digit first. -/
def digitsVal (ds : List Char) : Nat :=
  ds.foldl (fun a c => a * 10 + (c.toNat - '0'.toNat)) 0

/-- Attempt to match the identifier pattern at the start of `cs`: the literal
prefix, then a non-empty run of non-slash characters, a slash, a non-empty run
of digits (the captured key) and a closing slash.  The captured digits must
parse as a `u32` (`parse::<u32>().unwrap()` panics on overflow), which for a
digit run is exactly the bound `digitsVal digs < 2 ^ 32`. -/
def matchAt (cs : List Char) : Option Nat :=
  match dropLit lit_chars cs with
  | none => none
  | some rest =>
    match rest.takeWhile (fun c => c != '/'), rest.dropWhile (fun c => c != '/') with
    | [], _ => none
    | _ :: _, '/' :: rest2 =>
      match rest2.takeWhile Char.isDigit, rest2.dropWhile Char.isDigit with
      | [], _ => none
      | digs, '/' :: _ =>
        if digitsVal digs < 2 ^ 32 then some (digitsVal digs) else none
      | _, _ => none
    | _, _ => none

/-- Leftmost unanchored search: try to match the pattern at every position,
left to right. -/
def parseIdAux : List Char → Option Nat
  | [] => none
  | c :: cs =>
    match matchAt (c :: cs) with
    | some n => some n
    | none => parseIdAux cs

/-- Model of the source's `parse_id`: an unanchored regex search for
`https://swapi.dev/api/[^/]+/(?<id>\d+)/` followed by `u32` parsing of the
captured digits.  `none` models the panic of the source's `unwrap`s (no match,
or overflow of the captured value). -/
def parse_id (s : String) : Option Nat := parseIdAux s.data

/-- The `PageInfo` struct of the source. -/
structure PageInfo where
  has_previous_page : Bool
  has_next_page : Bool
  start_cursor : Option String
  end_cursor : Option String
  deriving DecidableEq

/-- The `Edge<N>` struct of the source. -/
structure Edge (N : Type) where
  node : Option N
  cursor : String
  deriving DecidableEq

/-- The `Connection<N>` struct of the source. -/
structure Connection (N : Type) where
  edges : List (Edge N)
  page_info : PageInfo
  deriving DecidableEq

/-- The filter predicate of `Connection::new` (source lines 208-216): keep an
id's key `k` exactly when it is above the `after` bound and below the `before`
bound, matching on which bounds are present. -/
def keep_key (beforeK afterK : Option Nat) (k : Nat) : Bool :=
  match beforeK, afterK with
  | some b, some a => decide (k > a) && decide (k < b)
  | some b, none => decide (k < b)
  | none, some a => decide (k > a)
  | none, none => true

/-- The candidate-window filter of `Connection::new`: each id in the list is
parsed with `parse_id` (panicking, i.e. `none`, on a malformed id) and kept
when `keep_key` accepts its key. -/
def filter_ids (beforeK afterK : Option Nat) : List String → Option (List String)
  | [] => some []
  | id :: rest =>
    match parse_id id with
    | none => none
    | some k =>
      (filter_ids beforeK afterK rest).map
        (fun l => if keep_key beforeK afterK k then id :: l else l)

/-- Decoding of an optional cursor argument (source lines 204-205:
`before.as_deref().map(parse_id)`), propagating the parse panic. -/
def decode_cursor_opt (c : Option String) : Option (Option Nat) :=
  match c with
  | none => some none
  | some s => (parse_id s).map some

/-- Parsing of the id of an optional node (source lines 245-246:
`edges.first().map(|c| parse_id(c.id()))`), propagating the parse panic. -/
def node_key_opt {N : Type} (nid : N → String) (c : Option N) : Option (Option Nat) :=
  match c with
  | none => some none
  | some n => (parse_id (nid n)).map some

/-- The value of `x as usize` for an `i32` value `x` on a 64-bit target: a
wrapping cast. -/
def usize_of_i32 (x : Int) : Nat := (x % (2 ^ 64 : Int)).toNat

/-- The final window of `Connection::new` (source lines 232-241): the forward
`take` by the (cast) `first` argument — defaulting to the candidate length —
followed by the front `skip` by the saturating difference of the take length
and the (cast) `last` argument. -/
def final_window (first lastArg : Option Int) (cand : List String) : List String :=
  let take_length := (first.map usize_of_i32).getD cand.length
  let skip_length :=
    match lastArg with
    | some l => take_length - usize_of_i32 l
    | none => 0
  (cand.take take_length).drop skip_length

/-- Shallow embedding of `Connection::new` (source lines 196-271).  `load`
is the loader closure; `nid` models the `Node` capability `c.id()` of the
loaded node type.  The result is `none` exactly when some `unwrap` in the
source panics (a malformed id or cursor). -/
def Connection.new {N : Type} (ids : List String) (load : String → N) (nid : N → String)
    (after : Option String) (first : Option Int)
    (before : Option String) (lastArg : Option Int) : Option (Connection N) :=
  (decode_cursor_opt before).bind fun beforeK =>
  (decode_cursor_opt after).bind fun afterK =>
  (filter_ids beforeK afterK ids).bind fun cand =>
  match cand with
  | [] =>
    some { edges := [],
           page_info := { has_previous_page := false, has_next_page := false,
                          start_cursor := none, end_cursor := none } }
  | e :: es =>
    (parse_id e).bind fun first_id =>
    (parse_id ((e :: es).getLast (List.cons_ne_nil e es))).bind fun last_id =>
    let nodes := (final_window first lastArg (e :: es)).map load
    (node_key_opt nid nodes.head?).bind fun page_first_id =>
    (node_key_opt nid nodes.getLast?).bind fun page_last_id =>
    some { page_info :=
             { has_previous_page :=
                 match page_first_id with
                 | some start => decide (start > first_id)
                 | none => false
               has_next_page :=
                 match page_last_id with
                 | some stop => decide (stop < last_id)
                 | none => false
               start_cursor := nodes.head?.map nid
               end_cursor := nodes.getLast?.map nid }
           edges := nodes.map (fun c => { cursor := nid c, node := some c }) }

/-- Total key extraction used to state properties of well-formed ids: the
parsed key, with an irrelevant default for the malformed case. -/
def key_of (id : String) : Nat := (parse_id id).getD 0

/-- The candidate window: the input ids whose keys pass the `after`/`before`
bounds, in input order. -/
def candidate_window (afterK beforeK : Option Nat) (ids : List String) : List String :=
  ids.filter (fun id => keep_key beforeK afterK (key_of id))

/-- Pure normal form of `Connection.new` for well-formed inputs: the same
computation with all parsing panics resolved away (proved equal to
`Connection.new` in `connection_new_eq_pure`). -/
def connection_pure {N : Type} (load : String → N) (nid : N → String)
    (afterK beforeK : Option Nat) (first lastArg : Option Int)
    (ids : List String) : Connection N :=
  match candidate_window afterK beforeK ids with
  | [] =>
    { edges := [],
      page_info := { has_previous_page := false, has_next_page := false,
                     start_cursor := none, end_cursor := none } }
  | e :: es =>
    let nodes := (final_window first lastArg (e :: es)).map load
    { page_info :=
        { has_previous_page :=
            match nodes.head? with
            | some c => decide (key_of (nid c) > key_of e)
            | none => false
          has_next_page :=
            match nodes.getLast? with
            | some c => decide (key_of (nid c) < key_of ((e :: es).getLast (List.cons_ne_nil e es)))
            | none => false
          start_cursor := nodes.head?.map nid
          end_cursor := nodes.getLast?.map nid }
      edges := nodes.map (fun c => { cursor := nid c, node := some c }) }

theorem parse_id_eq_key_of {id : String} (h : (parse_id id).isSome) :
    parse_id id = some (key_of id) := by
  rcases Option.isSome_iff_exists.mp h with ⟨k, hk⟩
  simp [key_of, hk]

theorem filter_ids_eq (beforeK afterK : Option Nat) (ids : List String)
    (hWF : ∀ id ∈ ids, (parse_id id).isSome) :
    filter_ids beforeK afterK ids = some (candidate_window afterK beforeK ids) := by
  induction ids with
  | nil => rfl
  | cons a l ih =>
    have ha : parse_id a = some (key_of a) := parse_id_eq_key_of (hWF a (by simp))
    have ih2 := ih (fun id hid => hWF id (by simp [hid]))
    simp only [filter_ids, ha, ih2, candidate_window, List.filter_cons, Option.map_some]
    by_cases hk : keep_key beforeK afterK (key_of a) <;> simp [candidate_window, hk]

/-- Bridge lemma: on well-formed input (every id in the list parses and the
loader returns a node carrying the id it was asked for, as the store data
guarantees), `Connection.new` does not panic and returns exactly the pure
normal form `connection_pure`. -/
theorem connection_new_eq_pure {N : Type} (ids : List String) (load : String → N)
    (nid : N → String) (after : Option String) (first : Option Int)
    (before : Option String) (lastArg : Option Int) (afterK beforeK : Option Nat)
    (hWF : ∀ id ∈ ids, (parse_id id).isSome)
    (hnid : ∀ id ∈ ids, nid (load id) = id)
    (ha : decode_cursor_opt after = some afterK)
    (hb : decode_cursor_opt before = some beforeK) :
    Connection.new ids load nid after first before lastArg
      = some (connection_pure load nid afterK beforeK first lastArg ids) := by
  unfold Connection.new connection_pure
  rw [hb, ha]
  simp only [Option.some_bind]
  rw [filter_ids_eq beforeK afterK ids hWF]
  simp only [Option.some_bind]
  cases hc : candidate_window afterK beforeK ids with
  | nil => rfl
  | cons e es =>
    have hsub : ∀ id ∈ e :: es, id ∈ ids := by
      intro id hid
      have hmem : id ∈ candidate_window afterK beforeK ids := hc ▸ hid
      exact (List.mem_filter.mp hmem).1
    have hWFc : ∀ id ∈ e :: es, parse_id id = some (key_of id) :=
      fun id hid => parse_id_eq_key_of (hWF id (hsub id hid))
    have he : parse_id e = some (key_of e) := hWFc e (List.mem_cons_self e es)
    have hl : parse_id ((e :: es).getLast (List.cons_ne_nil e es))
        = some (key_of ((e :: es).getLast (List.cons_ne_nil e es))) :=
      hWFc _ (List.getLast_mem _)
    simp only []
    rw [he, hl]
    simp only [Option.some_bind]
    cases hwin : final_window first lastArg (e :: es) with
    | nil => simp [node_key_opt]
    | cons w ws =>
      have hwsub : ∀ id ∈ w :: ws, id ∈ e :: es := by
        intro id hid
        have hmem : id ∈ final_window first lastArg (e :: es) := hwin ▸ hid
        unfold final_window at hmem
        exact List.take_subset _ _ (List.drop_subset _ _ hmem)
      have hw : w ∈ ids := hsub _ (hwsub _ (List.mem_cons_self w ws))
      have hlastmem : (w :: ws).getLast (List.cons_ne_nil w ws) ∈ ids :=
        hsub _ (hwsub _ (List.getLast_mem _))
      have hnw : nid (load w) = w := hnid w hw
      have hnl : nid (load ((w :: ws).getLast (List.cons_ne_nil w ws)))
          = (w :: ws).getLast (List.cons_ne_nil w ws) := hnid _ hlastmem
      have hglast : (load w :: List.map load ws).getLast?
          = some (load ((w :: ws).getLast (List.cons_ne_nil w ws))) := by
        have h1 : load w :: List.map load ws = List.map load (w :: ws) := rfl
        rw [h1, List.getLast?_map, List.getLast?_eq_getLast (w :: ws) (List.cons_ne_nil w ws)]
        rfl
      simp only [List.map_cons, List.head?_cons, hglast, node_key_opt, hnw, hnl,
        parse_id_eq_key_of (hWF w hw), parse_id_eq_key_of (hWF _ hlastmem),
        Option.map_some', Option.some_bind]

/-! Concrete identifiers used by the witnesses, keys 1..5. -/

def id1 : String := "https://swapi.dev/api/people/1/"

def id2 : String := "https://swapi.dev/api/people/2/"

def id3 : String := "https://swapi.dev/api/people/3/"

def id4 : String := "https://swapi.dev/api/people/4/"

def id5 : String := "https://swapi.dev/api/people/5/"

def ids5 : List String := [id1, id2, id3, id4, id5]

/-- C7: for every paginate call whose candidate window (after after/before key
filtering) is empty, `Connection::new` returns a Connection with an empty edge
list and PageInfo all false/None. -/
theorem claim_C7 {N : Type} (ids : List String) (load : String → N) (nid : N → String)
    (after before : Option String) (first lastArg : Option Int) (afterK beforeK : Option Nat)
    (hWF : ∀ id ∈ ids, (parse_id id).isSome)
    (hnid : ∀ id ∈ ids, nid (load id) = id)
    (ha : decode_cursor_opt after = some afterK)
    (hb : decode_cursor_opt before = some beforeK)
    (hempty : candidate_window afterK beforeK ids = []) :
    Connection.new ids load nid after first before lastArg
      = some { edges := [],
               page_info := { has_previous_page := false, has_next_page := false,
                              start_cursor := none, end_cursor := none } } := by
  rw [connection_new_eq_pure ids load nid after first before lastArg afterK beforeK
      hWF hnid ha hb]
  unfold connection_pure
  rw [hempty]

/-- C7 witness, Scenario C of the spec: on the five-element list with keys
1..5, `before` = the cursor of key 1 yields empty edges, both flags false and
both cursors None. -/
theorem claim_C7_witness :
    Connection.new ids5 (fun s => s) (fun s => s) none none (some id1) none
      = some { edges := [],
               page_info := { has_previous_page := false, has_next_page := false,
                              start_cursor := none, end_cursor := none } } :=
  claim_C7 ids5 (fun s => s) (fun s => s) none (some id1) none none none (some 1)
    (by decide) (fun _ _ => rfl) rfl (by decide) (by decide)

/-- C6: with a non-empty candidate window and `first = 0` or `last = 0`, the
returned edge list is empty; the pageInfo computed from the empty final window
against the candidate bounds is all false/None. -/
theorem claim_C6 {N : Type} (ids : List String) (load : String → N) (nid : N → String)
    (after before : Option String) (first lastArg : Option Int) (afterK beforeK : Option Nat)
    (e : String) (es : List String)
    (hWF : ∀ id ∈ ids, (parse_id id).isSome)
    (hnid : ∀ id ∈ ids, nid (load id) = id)
    (ha : decode_cursor_opt after = some afterK)
    (hb : decode_cursor_opt before = some beforeK)
    (hcand : candidate_window afterK beforeK ids = e :: es)
    (hzero : first = some 0 ∨ lastArg = some 0) :
    Connection.new ids load nid after first before lastArg
      = some { edges := [],
               page_info := { has_previous_page := false, has_next_page := false,
                              start_cursor := none, end_cursor := none } } := by
  rw [connection_new_eq_pure ids load nid after first before lastArg afterK beforeK
      hWF hnid ha hb]
  unfold connection_pure
  rw [hcand]
  simp only []
  have h0 : usize_of_i32 0 = 0 := rfl
  have hfw : final_window first lastArg (e :: es) = [] := by
    rcases hzero with h | h
    · subst h
      unfold final_window
      simp only [Option.map_some', Option.getD_some, h0, List.take_zero, List.drop_nil]
    · subst h
      unfold final_window
      simp only [h0, Nat.sub_zero]
      rw [List.drop_eq_nil_iff, List.length_take]
      exact min_le_left _ _
  rw [hfw]
  simp

/-- C6 witness: keys 1..5 with `first = 0` yields an empty edge list with
all-false/None pageInfo. -/
theorem claim_C6_witness :
    Connection.new ids5 (fun s => s) (fun s => s) none (some 0) none none
      = some { edges := [],
               page_info := { has_previous_page := false, has_next_page := false,
                              start_cursor := none, end_cursor := none } } :=
  claim_C6 ids5 (fun s => s) (fun s => s) none none (some 0) none none none
    id1 [id2, id3, id4, id5]
    (by decide) (fun _ _ => rfl) rfl rfl (by decide) (Or.inl rfl)

/-- C3: with a non-empty candidate window, `hasPreviousPage` is true iff the
final window's first key is strictly greater than the candidate window's first
key, `hasNextPage` is true iff the final window's last key is strictly less
than the candidate window's last key, and both flags are false when the final
window is empty. -/
theorem claim_C3 {N : Type} (ids : List String) (load : String → N) (nid : N → String)
    (after before : Option String) (first lastArg : Option Int) (afterK beforeK : Option Nat)
    (e : String) (es : List String)
    (hWF : ∀ id ∈ ids, (parse_id id).isSome)
    (hnid : ∀ id ∈ ids, nid (load id) = id)
    (ha : decode_cursor_opt after = some afterK)
    (hb : decode_cursor_opt before = some beforeK)
    (hcand : candidate_window afterK beforeK ids = e :: es) :
    ∃ conn, Connection.new ids load nid after first before lastArg = some conn ∧
      (conn.page_info.has_previous_page = true ↔
        ∃ ed, conn.edges.head? = some ed ∧ key_of e < key_of ed.cursor) ∧
      (conn.page_info.has_next_page = true ↔
        ∃ ed, conn.edges.getLast? = some ed ∧
          key_of ed.cursor < key_of ((e :: es).getLast (List.cons_ne_nil e es))) ∧
      (conn.edges = [] →
        conn.page_info.has_previous_page = false ∧
          conn.page_info.has_next_page = false) := by
  refine ⟨connection_pure load nid afterK beforeK first lastArg ids,
    connection_new_eq_pure ids load nid after first before lastArg afterK beforeK
      hWF hnid ha hb, ?_⟩
  unfold connection_pure
  rw [hcand]
  simp only []
  cases hwin : final_window first lastArg (e :: es) with
  | nil => simp
  | cons w ws =>
    have hg1 : (load w :: List.map load ws).getLast?
        = some (load ((w :: ws).getLast (List.cons_ne_nil w ws))) := by
      have h1 : load w :: List.map load ws = List.map load (w :: ws) := rfl
      rw [h1, List.getLast?_map, List.getLast?_eq_getLast (w :: ws) (List.cons_ne_nil w ws)]
      rfl
    have hg2 : (Edge.mk (some (load w)) (nid (load w)) ::
          List.map (fun c => Edge.mk (some c) (nid c)) (List.map load ws)).getLast?
        = some (Edge.mk (some (load ((w :: ws).getLast (List.cons_ne_nil w ws))))
            (nid (load ((w :: ws).getLast (List.cons_ne_nil w ws))))) := by
      have h1 : Edge.mk (some (load w)) (nid (load w)) ::
            List.map (fun c => Edge.mk (some c) (nid c)) (List.map load ws)
          = List.map (fun c => Edge.mk (some c) (nid c)) (load w :: List.map load ws) := rfl
      rw [h1, List.getLast?_map, hg1]
      rfl
    refine ⟨?_, ?_, ?_⟩
    · simp [decide_eq_true_iff]
    · simp only [List.map_cons, hg2, Option.some.injEq, hg1]
      simp [decide_eq_true_iff]
    · simp

/-- C3 witness, instantiated at keys 1..5 with `first = 2`: the final window
is keys 1,2, so `hasPreviousPage` (1 > 1) is false and `hasNextPage` (2 < 5)
is true, matching the stated equivalences. -/
theorem claim_C3_witness :
    ∃ conn, Connection.new ids5 (fun s => s) (fun s => s) none (some 2) none none
        = some conn ∧
      (conn.page_info.has_previous_page = true ↔
        ∃ ed, conn.edges.head? = some ed ∧ key_of id1 < key_of ed.cursor) ∧
      (conn.page_info.has_next_page = true ↔
        ∃ ed, conn.edges.getLast? = some ed ∧
          key_of ed.cursor
            < key_of ((id1 :: [id2, id3, id4, id5]).getLast
                (List.cons_ne_nil id1 [id2, id3, id4, id5]))) ∧
      (conn.edges = [] →
        conn.page_info.has_previous_page = false ∧
          conn.page_info.has_next_page = false) :=
  claim_C3 ids5 (fun s => s) (fun s => s) none none (some 2) none none none
    id1 [id2, id3, id4, id5]
    (by decide) (fun _ _ => rfl) rfl rfl (by decide)

/-- The cursors of the built edges over a window whose ids round-trip through
the loader are the window's ids themselves. -/
theorem edges_cursor_map {N : Type} (load : String → N) (nid : N → String)
    (win : List String) (h : ∀ id ∈ win, nid (load id) = id) :
    ((win.map load).map (fun c => Edge.mk (some c) (nid c))).map (fun ed => ed.cursor)
      = win := by
  rw [List.map_map, List.map_map]
  refine (List.map_congr_left ?_).trans (List.map_id _)
  exact h

/-- The key-bounds filter of the claims, written with explicit optional
bounds, agrees with the source's `keep_key` match. -/
theorem keep_key_eq_bounds (beforeK afterK : Option Nat) (k : Nat) :
    keep_key beforeK afterK k
      = ((afterK.all fun a => decide (a < k)) && (beforeK.all fun b => decide (k < b))) := by
  cases beforeK <;> cases afterK <;>
    simp [keep_key, Option.all_some, Option.all_none, Bool.and_comm]

/-- C4: the identifiers of the returned edges form a contiguous,
order-preserving subsequence (an infix) of the input id list restricted to ids
whose key is strictly greater than the after-key (if given) and strictly less
than the before-key (if given); the cursors are decoded purely by key
comparison, never by membership in the list. -/
theorem claim_C4 {N : Type} (ids : List String) (load : String → N) (nid : N → String)
    (after before : Option String) (first lastArg : Option Int) (afterK beforeK : Option Nat)
    (hWF : ∀ id ∈ ids, (parse_id id).isSome)
    (hnid : ∀ id ∈ ids, nid (load id) = id)
    (ha : decode_cursor_opt after = some afterK)
    (hb : decode_cursor_opt before = some beforeK) :
    ∃ conn, Connection.new ids load nid after first before lastArg = some conn ∧
      List.IsInfix (conn.edges.map fun ed => ed.cursor)
        (ids.filter fun id =>
          (afterK.all fun a => decide (a < key_of id)) &&
          (beforeK.all fun b => decide (key_of id < b))) := by
  have hfilter : (ids.filter fun id =>
        (afterK.all fun a => decide (a < key_of id)) &&
        (beforeK.all fun b => decide (key_of id < b)))
      = candidate_window afterK beforeK ids := by
    unfold candidate_window
    exact List.filter_congr fun id _ => (keep_key_eq_bounds beforeK afterK (key_of id)).symm
  rw [hfilter]
  refine ⟨connection_pure load nid afterK beforeK first lastArg ids,
    connection_new_eq_pure ids load nid after first before lastArg afterK beforeK
      hWF hnid ha hb, ?_⟩
  unfold connection_pure
  cases hc : candidate_window afterK beforeK ids with
  | nil => exact ⟨[], [], by simp⟩
  | cons e es =>
    simp only []
    have hsub : ∀ id ∈ e :: es, id ∈ ids := by
      intro id hid
      have hmem : id ∈ candidate_window afterK beforeK ids := hc ▸ hid
      exact (List.mem_filter.mp hmem).1
    have hwin_sub : ∀ id ∈ final_window first lastArg (e :: es), id ∈ e :: es := by
      intro id hid
      unfold final_window at hid
      exact List.take_subset _ _ (List.drop_subset _ _ hid)
    rw [edges_cursor_map load nid _ (fun a hmem => hnid a (hsub a (hwin_sub a hmem)))]
    clear hwin_sub hsub
    unfold final_window
    simp only []
    refine ⟨(((e :: es).take ((first.map usize_of_i32).getD (e :: es).length)).take
        (match lastArg with
         | some l => ((first.map usize_of_i32).getD (e :: es).length) - usize_of_i32 l
         | none => 0)),
      (e :: es).drop ((first.map usize_of_i32).getD (e :: es).length), ?_⟩
    rw [List.take_append_drop, List.take_append_drop]

/-- C4 witness, instantiated with `after` = the cursor of key 2 and
`last = 2` on keys 1..5. -/
theorem claim_C4_witness :
    ∃ conn, Connection.new ids5 (fun s => s) (fun s => s) (some id2) none none (some 2)
        = some conn ∧
      List.IsInfix (conn.edges.map fun ed => ed.cursor)
        (ids5.filter fun id =>
          ((some 2 : Option Nat).all fun a => decide (a < key_of id)) &&
          ((none : Option Nat).all fun b => decide (key_of id < b))) :=
  claim_C4 ids5 (fun s => s) (fun s => s) (some id2) none none (some 2) (some 2) none
    (by decide) (fun _ _ => rfl) (by decide) rfl

/-- C1 counterexample: on ids with keys 1,2,3 and `first = 10`, `last = 2`,
the claim's reading (`takeLen` = the actual count of items produced by the
forward slice, here 3) predicts the trailing two edges with keys 2 and 3; the
code instead uses the nominal take length 10, drops `10 - 2 = 8` items from a
three-element slice, and returns no edges at all. -/
theorem claim_C1_counterexample :
    (Connection.new [id1, id2, id3] (fun s => s) (fun s => s) none (some 10) none
          (some 2)).map (fun c => c.edges.map fun ed => ed.cursor) = some [] ∧
      (Connection.new [id1, id2, id3] (fun s => s) (fun s => s) none (some 10) none
          (some 2)).map (fun c => c.edges.map fun ed => ed.cursor) ≠ some [id2, id3] := by
  constructor <;> decide

/-- C1 as amended: when `last = l` is given, the returned edge identifiers are
`drop (takeLen - l) (take takeLen candidate)` where `takeLen` is the *nominal*
forward length — the given `first` itself (even when it exceeds the window
length), or the candidate window length when `first` is absent — with
saturating subtraction; for `first` at most the window length this coincides
with the original claim, and Scenario D (first=2, last=1 on keys 1..5 giving
the single edge with key 2) still holds. -/
theorem claim_C1 {N : Type} (ids : List String) (load : String → N) (nid : N → String)
    (after before : Option String) (first : Option Int) (afterK beforeK : Option Nat)
    (e : String) (es : List String) (l : Int)
    (hWF : ∀ id ∈ ids, (parse_id id).isSome)
    (hnid : ∀ id ∈ ids, nid (load id) = id)
    (ha : decode_cursor_opt after = some afterK)
    (hb : decode_cursor_opt before = some beforeK)
    (hcand : candidate_window afterK beforeK ids = e :: es)
    (hf : ∀ fv, first = some fv → 0 ≤ fv ∧ fv < 2 ^ 31)
    (hl : 0 ≤ l) (hl2 : l < 2 ^ 31) :
    ∃ conn, Connection.new ids load nid after first before (some l) = some conn ∧
      conn.edges.map (fun ed => ed.cursor)
        = ((e :: es).take ((first.map Int.toNat).getD (e :: es).length)).drop
            (((first.map Int.toNat).getD (e :: es).length) - l.toNat) := by
  refine ⟨connection_pure load nid afterK beforeK first (some l) ids,
    connection_new_eq_pure ids load nid after first before (some l) afterK beforeK
      hWF hnid ha hb, ?_⟩
  unfold connection_pure
  rw [hcand]
  simp only []
  have hsub : ∀ id ∈ e :: es, id ∈ ids := by
    intro id hid
    have hmem : id ∈ candidate_window afterK beforeK ids := hcand ▸ hid
    exact (List.mem_filter.mp hmem).1
  have hwin_sub : ∀ id ∈ final_window first (some l) (e :: es), id ∈ e :: es := by
    intro id hid
    unfold final_window at hid
    exact List.take_subset _ _ (List.drop_subset _ _ hid)
  rw [edges_cursor_map load nid _ (fun a hmem => hnid a (hsub a (hwin_sub a hmem)))]
  clear hwin_sub hsub
  have hcast : ∀ x : Int, 0 ≤ x → x < 2 ^ 31 → usize_of_i32 x = x.toNat := by
    intro x h1 h2
    unfold usize_of_i32
    rw [Int.emod_eq_of_lt h1 (by omega)]
  have hT : (first.map usize_of_i32).getD (e :: es).length
      = (first.map Int.toNat).getD (e :: es).length := by
    cases first with
    | none => rfl
    | some fv => simp [hcast fv (hf fv rfl).1 (hf fv rfl).2]
  unfold final_window
  simp only []
  rw [hT, hcast l hl hl2]

/-- C1 witness, Scenario D: keys 1..5 with `first = 2`, `last = 1` give the
single edge with key 2. -/
theorem claim_C1_witness :
    ∃ conn, Connection.new ids5 (fun s => s) (fun s => s) none (some 2) none (some 1)
        = some conn ∧
      conn.edges.map (fun ed => ed.cursor) = [id2] := by
  obtain ⟨conn, h1, h2⟩ :=
    claim_C1 ids5 (fun s => s) (fun s => s) none none (some 2) none none
      id1 [id2, id3, id4, id5] 1
      (by decide) (fun _ _ => rfl) rfl rfl (by decide)
      (fun fv hfv => by cases hfv; constructor <;> norm_num) (by norm_num) (by norm_num)
  exact ⟨conn, h1, by rw [h2]; decide⟩

/-- C2 counterexample: a call with `first = -1` does not fail — there is no
`InvalidArgument` error path in the code at all; the wrapping `i32 -> usize`
cast turns `-1` into a huge take length and the call returns the whole
candidate window. -/
theorem claim_C2_counterexample :
    (Connection.new [id1, id2] (fun s => s) (fun s => s) none (some (-1)) none none).map
      (fun c => c.edges.map fun ed => ed.cursor) = some [id1, id2] := by
  rw [connection_new_eq_pure [id1, id2] (fun s => s) (fun s => s) none (some (-1)) none
      none none none (by decide) (fun _ _ => rfl) rfl rfl]
  have hc : candidate_window none none [id1, id2] = id1 :: [id2] := by decide
  have hfw : final_window (some (-1)) none (id1 :: [id2]) = id1 :: [id2] := by
    unfold final_window
    simp only [Option.map_some', Option.getD_some, List.drop_zero]
    refine List.take_of_length_le ?_
    have h1 : (1844674407370955161 : Nat) ≤ usize_of_i32 (-1) := by
      unfold usize_of_i32
      omega
    simp only [List.length_cons, List.length_nil]
    omega
  unfold connection_pure
  rw [hc]
  simp only []
  rw [hfw]
  decide

/-- C2 as amended: negative `first`/`last` is not rejected — no
`InvalidArgument` error path exists.  A negative `first` is wrapping-cast to a
take length exceeding any list length, so with `last` absent the call behaves
as if `first` were absent (whole candidate window); a negative `last` makes
the saturating skip length 0, so the call behaves as if `last` were absent. -/
theorem claim_C2 {N : Type} (ids : List String) (load : String → N) (nid : N → String)
    (after before : Option String) (afterK beforeK : Option Nat)
    (hWF : ∀ id ∈ ids, (parse_id id).isSome)
    (hnid : ∀ id ∈ ids, nid (load id) = id)
    (ha : decode_cursor_opt after = some afterK)
    (hb : decode_cursor_opt before = some beforeK)
    (hlen : ids.length < 2 ^ 31) :
    (∀ f : Int, -(2 ^ 31) ≤ f → f < 0 →
      Connection.new ids load nid after (some f) before none
        = Connection.new ids load nid after none before none) ∧
    (∀ l : Int, -(2 ^ 31) ≤ l → l < 0 → ∀ first : Option Int,
      (∀ fv, first = some fv → 0 ≤ fv ∧ fv < 2 ^ 31) →
      Connection.new ids load nid after first before (some l)
        = Connection.new ids load nid after first before none) := by
  have hcandlen : ∀ e es, candidate_window afterK beforeK ids = e :: es →
      (e :: es).length < 2 ^ 31 := by
    intro e es hc
    calc (e :: es).length = (candidate_window afterK beforeK ids).length := by rw [hc]
      _ ≤ ids.length := List.length_filter_le _ _
      _ < 2 ^ 31 := hlen
  constructor
  · intro f h1 h2
    rw [connection_new_eq_pure ids load nid after (some f) before none afterK beforeK
        hWF hnid ha hb,
      connection_new_eq_pure ids load nid after none before none afterK beforeK
        hWF hnid ha hb]
    refine congrArg some ?_
    unfold connection_pure
    cases hc : candidate_window afterK beforeK ids with
    | nil => rfl
    | cons e es =>
      simp only []
      have hfw : final_window (some f) none (e :: es) = final_window none none (e :: es) := by
        unfold final_window
        simp only [Option.map_some', Option.getD_some, Option.map_none', Option.getD_none,
          List.drop_zero]
        rw [List.take_length, List.take_of_length_le]
        have h3 := hcandlen e es hc
        unfold usize_of_i32
        omega
      rw [hfw]
  · intro l h1 h2 first hf
    rw [connection_new_eq_pure ids load nid after first before (some l) afterK beforeK
        hWF hnid ha hb,
      connection_new_eq_pure ids load nid after first before none afterK beforeK
        hWF hnid ha hb]
    refine congrArg some ?_
    unfold connection_pure
    cases hc : candidate_window afterK beforeK ids with
    | nil => rfl
    | cons e es =>
      simp only []
      have hfw : final_window first (some l) (e :: es) = final_window first none (e :: es) := by
        unfold final_window
        simp only [List.drop_zero]
        have hT : (first.map usize_of_i32).getD (e :: es).length < 2 ^ 31 := by
          cases first with
          | none => simpa using hcandlen e es hc
          | some fv =>
            obtain ⟨hfv1, hfv2⟩ := hf fv rfl
            simp only [Option.map_some', Option.getD_some]
            unfold usize_of_i32
            omega
        have hskip : (first.map usize_of_i32).getD (e :: es).length - usize_of_i32 l = 0 := by
          have h3 : (2 : Nat) ^ 31 ≤ usize_of_i32 l := by
            unfold usize_of_i32
            omega
          omega
        rw [hskip, List.drop_zero]
      rw [hfw]

/-- C2 witness: on keys 1..5, `first = -1` behaves as `first` absent and
`last = -1` behaves as `last` absent; in particular neither call fails. -/
theorem claim_C2_witness :
    Connection.new ids5 (fun s => s) (fun s => s) none (some (-1)) none none
        = Connection.new ids5 (fun s => s) (fun s => s) none none none none ∧
      Connection.new ids5 (fun s => s) (fun s => s) none none none (some (-1))
        = Connection.new ids5 (fun s => s) (fun s => s) none none none none :=
  ⟨(claim_C2 ids5 (fun s => s) (fun s => s) none none none none
      (by decide) (fun _ _ => rfl) rfl rfl (by decide)).1 (-1) (by norm_num) (by norm_num),
   (claim_C2 ids5 (fun s => s) (fun s => s) none none none none
      (by decide) (fun _ _ => rfl) rfl rfl (by decide)).2 (-1) (by norm_num) (by norm_num)
      none (fun fv hfv => nomatch hfv)⟩

/-- C10: every Connection built by `Connection::new` has each edge's node
`Some` of the loaded node, each edge's cursor equal to that node's own
identifier string, and `startCursor`/`endCursor` equal to the cursor of the
first/last edge respectively, `None` exactly when the edge list is empty. -/
theorem claim_C10 {N : Type} (ids : List String) (load : String → N) (nid : N → String)
    (after before : Option String) (first lastArg : Option Int) (afterK beforeK : Option Nat)
    (hWF : ∀ id ∈ ids, (parse_id id).isSome)
    (hnid : ∀ id ∈ ids, nid (load id) = id)
    (ha : decode_cursor_opt after = some afterK)
    (hb : decode_cursor_opt before = some beforeK) :
    ∃ conn, Connection.new ids load nid after first before lastArg = some conn ∧
      (∀ ed ∈ conn.edges, ∃ n, ed.node = some n ∧ ed.cursor = nid n) ∧
      conn.page_info.start_cursor = conn.edges.head?.map (fun ed => ed.cursor) ∧
      conn.page_info.end_cursor = conn.edges.getLast?.map (fun ed => ed.cursor) ∧
      (conn.page_info.start_cursor = none ↔ conn.edges = []) ∧
      (conn.page_info.end_cursor = none ↔ conn.edges = []) := by
  refine ⟨connection_pure load nid afterK beforeK first lastArg ids,
    connection_new_eq_pure ids load nid after first before lastArg afterK beforeK
      hWF hnid ha hb, ?_⟩
  unfold connection_pure
  cases hc : candidate_window afterK beforeK ids with
  | nil => simp
  | cons e es =>
    simp only []
    refine ⟨?_, ?_, ?_, ?_, ?_⟩
    · intro ed hed
      rcases List.mem_map.mp hed with ⟨c, hcmem, rfl⟩
      exact ⟨c, rfl, rfl⟩
    · simp only [List.head?_map, Option.map_map]
      rfl
    · simp only [List.getLast?_map, Option.map_map]
      rfl
    · simp [List.head?_map, Option.map_map, Option.map_eq_none', List.head?_eq_none_iff,
        List.map_eq_nil_iff]
    · simp [List.getLast?_map, Option.map_map, Option.map_eq_none',
        List.getLast?_eq_none_iff, List.map_eq_nil_iff]

/-- C10 witness, instantiated at keys 1..5 with `first = 3`. -/
theorem claim_C10_witness :
    ∃ conn, Connection.new ids5 (fun s => s) (fun s => s) none (some 3) none none
        = some conn ∧
      (∀ ed ∈ conn.edges, ∃ n, ed.node = some n ∧ ed.cursor = n) ∧
      conn.page_info.start_cursor = conn.edges.head?.map (fun ed => ed.cursor) ∧
      conn.page_info.end_cursor = conn.edges.getLast?.map (fun ed => ed.cursor) ∧
      (conn.page_info.start_cursor = none ↔ conn.edges = []) ∧
      (conn.page_info.end_cursor = none ↔ conn.edges = []) :=
  claim_C10 ids5 (fun s => s) (fun s => s) none none (some 3) none none none
    (by decide) (fun _ _ => rfl) rfl rfl


/-! The identifier codec of the spec: a cursor is the identifier string
itself (source line 266 uses `c.id().to_string()` as the cursor), and both
cursor decoding (source lines 204-205) and key extraction are `parse_id`. -/

/-- Cursor encoding: a node's own identifier string is its cursor. -/
def encode_cursor (identifier : String) : String := identifier

/-- Key extraction from an identifier string is `parse_id`. -/
def extract_key : String → Option Nat := parse_id

/-- Cursor decoding is exactly key extraction. -/
def decode_cursor : String → Option Nat := extract_key

theorem dropLit_append (p cs : List Char) : dropLit p (p ++ cs) = some cs := by
  induction p with
  | nil => rfl
  | cons a ps ih => simp [dropLit, ih]

theorem takeWhile_append_all {α : Type} (p : α → Bool) (l : List α) (c : α) (t : List α)
    (hl : ∀ x ∈ l, p x = true) (hc : p c = false) :
    (l ++ c :: t).takeWhile p = l ∧ (l ++ c :: t).dropWhile p = c :: t := by
  induction l with
  | nil => simp [List.takeWhile_cons, List.dropWhile_cons, hc]
  | cons a as ih =>
    have hpa : p a = true := hl a (List.mem_cons_self a as)
    have ih2 := ih (fun x hx => hl x (List.mem_cons.mpr (Or.inr hx)))
    simp [List.takeWhile_cons, List.dropWhile_cons, hpa, ih2.1, ih2.2]

/-- The pattern matcher succeeds at the start of a well-formed identifier
tail and captures the digit run's value. -/
theorem matchAt_well_formed (cat digs rest : List Char)
    (hcat : cat ≠ []) (hslash : ∀ c ∈ cat, ¬ c = '/')
    (hd : digs ≠ []) (hdd : ∀ c ∈ digs, Char.isDigit c = true)
    (hv : digitsVal digs < 2 ^ 32) :
    matchAt (lit_chars ++ (cat ++ '/' :: (digs ++ '/' :: rest)))
      = some (digitsVal digs) := by
  unfold matchAt
  rw [dropLit_append]
  simp only []
  obtain ⟨ht, hdp⟩ := takeWhile_append_all (fun c => c != '/') cat '/'
    (digs ++ '/' :: rest) (fun x hx => by simpa using hslash x hx) (by decide)
  rw [ht, hdp]
  cases cat with
  | nil => exact absurd rfl hcat
  | cons a as =>
    simp only []
    obtain ⟨ht2, hdp2⟩ := takeWhile_append_all Char.isDigit digs '/' rest hdd (by decide)
    rw [ht2, hdp2]
    cases digs with
    | nil => exact absurd rfl hd
    | cons d ds =>
      simp only []
      rw [if_pos hv]

theorem parseIdAux_cons_of_matchAt (c : Char) (cs : List Char) (n : Nat)
    (h : matchAt (c :: cs) = some n) : parseIdAux (c :: cs) = some n := by
  simp [parseIdAux, h]

/-- On a well-formed identifier the unanchored search matches at the start
and returns the digit run's value. -/
theorem parse_id_well_formed (cat digs : String)
    (hcat : cat.data ≠ []) (hslash : ∀ c ∈ cat.data, ¬ c = '/')
    (hd : digs.data ≠ []) (hdd : ∀ c ∈ digs.data, Char.isDigit c = true)
    (hv : digitsVal digs.data < 2 ^ 32) :
    parse_id ("https://swapi.dev/api/" ++ cat ++ "/" ++ digs ++ "/")
      = some (digitsVal digs.data) := by
  unfold parse_id
  have hdata : ("https://swapi.dev/api/" ++ cat ++ "/" ++ digs ++ "/").data
      = lit_chars ++ (cat.data ++ '/' :: (digs.data ++ '/' :: [])) := by
    simp only [String.data_append, List.append_assoc, lit_chars]
    rfl
  rw [hdata]
  exact parseIdAux_cons_of_matchAt 'h'
    ("ttps://swapi.dev/api/".data ++ (cat.data ++ '/' :: (digs.data ++ '/' :: [])))
    (digitsVal digs.data)
    (matchAt_well_formed cat.data digs.data [] hcat hslash hd hdd hv)

/-- C8: for every well-formed identifier string (shape
`.../<category>/<digits>/`), `decode_cursor (encode_cursor id)` equals
`extract_key id`: encoding is the identity on the identifier string and
decoding is exactly key extraction, both defined and equal to the digits'
value. -/
theorem claim_C8 (cat digs : String)
    (hcat : cat.data ≠ []) (hslash : ∀ c ∈ cat.data, ¬ c = '/')
    (hd : digs.data ≠ []) (hdd : ∀ c ∈ digs.data, Char.isDigit c = true)
    (hv : digitsVal digs.data < 2 ^ 32) :
    decode_cursor (encode_cursor ("https://swapi.dev/api/" ++ cat ++ "/" ++ digs ++ "/"))
        = extract_key ("https://swapi.dev/api/" ++ cat ++ "/" ++ digs ++ "/")
      ∧ extract_key ("https://swapi.dev/api/" ++ cat ++ "/" ++ digs ++ "/")
        = some (digitsVal digs.data) :=
  ⟨rfl, parse_id_well_formed cat digs hcat hslash hd hdd hv⟩

/-- C8 witness at the concrete identifier with category `people` and key 42. -/
theorem claim_C8_witness :
    decode_cursor (encode_cursor ("https://swapi.dev/api/" ++ "people" ++ "/" ++ "42" ++ "/"))
        = extract_key ("https://swapi.dev/api/" ++ "people" ++ "/" ++ "42" ++ "/")
      ∧ extract_key ("https://swapi.dev/api/" ++ "people" ++ "/" ++ "42" ++ "/")
        = some (digitsVal "42".data) :=
  claim_C8 "people" "42" (by decide) (by decide) (by decide) (by decide) (by decide)


/-! The generic field-dispatch layer: `resolve_field` on `Connection<N>`
(source lines 319-331) and on `Edge<N>` (source lines 405-417) match the
requested field name against the fixed catalogue and panic otherwise; the
asynchronous variants (source lines 341-357 and 427-444) perform the same
match, awaiting nested resolution.  The resolved value is represented by a
tag; `none` models the `panic!` on an unknown field name. -/

/-- Tag for the value a field resolution produces. -/
inductive FieldOutcome (N : Type) where
  | edgesOut : List (Edge N) → FieldOutcome N
  | pageInfoOut : PageInfo → FieldOutcome N
  | nodeOut : Option N → FieldOutcome N
  | cursorOut : String → FieldOutcome N
  deriving DecidableEq

/-- Synchronous field dispatch on `Connection<N>`. -/
def Connection.resolve_field {N : Type} (c : Connection N) (field_name : String) :
    Option (FieldOutcome N) :=
  if field_name = "edges" then some (FieldOutcome.edgesOut c.edges)
  else if field_name = "pageInfo" then some (FieldOutcome.pageInfoOut c.page_info)
  else none

/-- Asynchronous field dispatch on `Connection<N>`: the same match, with the
await of the nested resolution transparent at this level. -/
def Connection.resolve_field_async {N : Type} (c : Connection N) (field_name : String) :
    Option (FieldOutcome N) :=
  if field_name = "edges" then some (FieldOutcome.edgesOut c.edges)
  else if field_name = "pageInfo" then some (FieldOutcome.pageInfoOut c.page_info)
  else none

/-- Synchronous field dispatch on `Edge<N>`. -/
def Edge.resolve_field {N : Type} (e : Edge N) (field_name : String) :
    Option (FieldOutcome N) :=
  if field_name = "node" then some (FieldOutcome.nodeOut e.node)
  else if field_name = "cursor" then some (FieldOutcome.cursorOut e.cursor)
  else none

/-- Asynchronous field dispatch on `Edge<N>`. -/
def Edge.resolve_field_async {N : Type} (e : Edge N) (field_name : String) :
    Option (FieldOutcome N) :=
  if field_name = "node" then some (FieldOutcome.nodeOut e.node)
  else if field_name = "cursor" then some (FieldOutcome.cursorOut e.cursor)
  else none

/-- C9: field resolution on `Connection<N>` succeeds exactly for `edges` and
`pageInfo`, on `Edge<N>` exactly for `node` and `cursor`; every other field
name is a resolution fault (a panic), identically on the synchronous and
asynchronous paths. -/
theorem claim_C9 {N : Type} (c : Connection N) (e : Edge N) (field_name : String) :
    ((c.resolve_field field_name).isSome ↔ field_name = "edges" ∨ field_name = "pageInfo")
      ∧ c.resolve_field_async field_name = c.resolve_field field_name
      ∧ ((e.resolve_field field_name).isSome ↔ field_name = "node" ∨ field_name = "cursor")
      ∧ e.resolve_field_async field_name = e.resolve_field field_name := by
  unfold Connection.resolve_field Connection.resolve_field_async
  unfold Edge.resolve_field Edge.resolve_field_async
  refine ⟨?_, rfl, ?_, rfl⟩ <;> split_ifs <;> simp_all

/-! The query root (source lines 448-470): `node` looks the id up in the
in-memory store and converts the raw record through `From<NodeJson> for
NodeValue` (source lines 40-48), whose catch-all arm is `todo!()` — a panic,
modelled as the outer `none`; `film`/`person` narrow the result to one node
type.  The store is the `BTreeMap<String, NodeJson>`, modelled as an
association list with `lookup`. -/

/-- The `Person` record (source lines 123-128). -/
structure Person where
  id : String
  name : String
  films : List String
  deriving DecidableEq

/-- The `Film` record (source lines 68-73). -/
structure Film where
  id : String
  title : String
  characters : List String
  deriving DecidableEq

/-- The tagged union of raw records in the store (source lines 29-38). -/
inductive NodeJson where
  | person : Person → NodeJson
  | film : Film → NodeJson
  | planet : NodeJson
  | species : NodeJson
  | starship : NodeJson
  | vehicle : NodeJson
  deriving DecidableEq

/-- The node-value union exposed by the schema (the `NodeValue` interface
implementors, Film and Person). -/
inductive NodeValue where
  | film : Film → NodeValue
  | person : Person → NodeValue
  deriving DecidableEq

/-- `From<NodeJson> for NodeValue` (source lines 40-48): Film and Person map
across; every other category hits `todo!()`, a panic, modelled as `none`. -/
def node_value_from : NodeJson → Option NodeValue
  | NodeJson.film f => some (NodeValue.film f)
  | NodeJson.person p => some (NodeValue.person p)
  | _ => none

/-- The read-only store context (source lines 50-53). -/
structure Context where
  data : List (String × NodeJson)
  deriving DecidableEq

/-- `BTreeMap::get` on the store. -/
def Context.get (ctx : Context) (id : String) : Option NodeJson :=
  ctx.data.lookup id

/-- `Query::node` (source lines 463-469): `none` on the outside models the
panic of the `todo!()` conversion; `some none` is a genuinely absent id. -/
def Query.node (ctx : Context) (id : String) : Option (Option NodeValue) :=
  match ctx.get id with
  | none => some none
  | some record =>
    match node_value_from record with
    | none => none
    | some v => some (some v)

/-- `Query::film` (source lines 449-454). -/
def Query.film (ctx : Context) (id : String) : Option (Option Film) :=
  match Query.node ctx id with
  | none => none
  | some (some (NodeValue.film f)) => some (some f)
  | some _ => some none

/-- `Query::person` (source lines 456-461). -/
def Query.person (ctx : Context) (id : String) : Option (Option Person) :=
  match Query.node ctx id with
  | none => none
  | some (some (NodeValue.person p)) => some (some p)
  | some _ => some none

/-- C5, evaluation at the failing input: the claim says the typed lookups
return `None` whenever the id resolves to a record of a different node type,
but for an id resolving to an unsupported category (here a Planet record) the
conversion hits `todo!()` and panics (the outer `none`) instead of returning
`Some(None)`; for a supported but different type (a Person record asked for
as a film) the claimed `None` is indeed returned. -/
theorem claim_C5_code_bug_eval :
    Query.film { data := [("https://swapi.dev/api/planets/1/", NodeJson.planet)] }
        "https://swapi.dev/api/planets/1/" = none
      ∧ Query.person { data := [("https://swapi.dev/api/planets/1/", NodeJson.planet)] }
          "https://swapi.dev/api/planets/1/" = none
      ∧ Query.film { data := [("https://swapi.dev/api/people/1/",
            NodeJson.person { id := "https://swapi.dev/api/people/1/", name := "Luke",
                              films := [] })] }
          "https://swapi.dev/api/people/1/" = some none := by
  refine ⟨rfl, rfl, rfl⟩

end Swapi
